import Mathlib

/-
Verification development for the az_da_cost_management repository.

Shallow embedding of the two source files:
  * src/preparation/build_subscriptions_yaml.py (subscription identity
    resolver and the directory-export aggregation driver);
  * src/pull_monthly/rg_monthly_costs.py (resilient query executor, cost
    row aggregator, month-range computation and cost-pull driver).

Python dicts are modelled as insertion-ordered association lists
(`List (String × α)`) with first-match lookup; Python floats are modelled
as rationals; Python sets of strings as duplicate-free lists in insertion
order.
-/

namespace AzDaCost

/-! ## Association list machinery (model of Python `dict`) -/

/-- First-match lookup in an association list; models `d.get(k)`. -/
def alookup {α : Type} : List (String × α) → String → Option α
  | [], _ => none
  | (k1, v1) :: rest, k => if k = k1 then some v1 else alookup rest k

/-- In-place update if the key exists, append otherwise; models `d[k] = v`
on an insertion-ordered dict. -/
def assocUpdate {α : Type} : List (String × α) → String → α → List (String × α)
  | [], k, v => [(k, v)]
  | (k1, v1) :: rest, k, v =>
      if k = k1 then (k, v) :: rest else (k1, v1) :: assocUpdate rest k v

/-- Models Python `d.setdefault(k, v)`: insert only when the key is absent. -/
def setdefaultA {α : Type} (d : List (String × α)) (k : String) (v : α) :
    List (String × α) :=
  match alookup d k with
  | some _ => d
  | none => d ++ [(k, v)]

theorem alookup_append {α : Type} (l m : List (String × α)) (k : String) :
    alookup (l ++ m) k = ((alookup l k).rec (alookup m k) fun v => some v) := by
  induction l with
  | nil => simp [alookup]
  | cons hd tl ih =>
      obtain ⟨k1, v1⟩ := hd
      by_cases h : k = k1 <;> simp [alookup, h, ih]

theorem alookup_append_of_eq_some {α : Type} (l m : List (String × α)) (k : String)
    (v : α) (h : alookup l k = some v) : alookup (l ++ m) k = some v := by
  rw [alookup_append, h]

theorem alookup_assocUpdate_self {α : Type} (d : List (String × α)) (k : String) (v : α) :
    alookup (assocUpdate d k v) k = some v := by
  induction d with
  | nil => simp [assocUpdate, alookup]
  | cons hd tl ih =>
      obtain ⟨k1, v1⟩ := hd
      by_cases h : k = k1 <;> simp [assocUpdate, alookup, h, ih]

theorem alookup_assocUpdate_of_ne {α : Type} (d : List (String × α)) (k k2 : String)
    (v : α) (hne : k2 ≠ k) : alookup (assocUpdate d k v) k2 = alookup d k2 := by
  induction d with
  | nil => simp [assocUpdate, alookup, hne]
  | cons hd tl ih =>
      obtain ⟨k1, v1⟩ := hd
      by_cases h : k = k1
      · subst h
        simp [assocUpdate, alookup, hne]
      · by_cases h2 : k2 = k1 <;> simp [assocUpdate, alookup, h, h2, ih]

/-! ## Python string primitives

`str.lower()` and `str.strip()` are modelled directly on the character
list (ASCII case mapping and ASCII whitespace, which covers every string
these programs handle). -/

/-- ASCII lower-casing of one character, as `str.lower()` does per
character. -/
def lowerChar (c : Char) : Char :=
  if Char.ofNat 65 ≤ c ∧ c ≤ Char.ofNat 90 then Char.ofNat (c.toNat + 32) else c

/-- Model of Python `s.lower()`. -/
def strLower (s : String) : String := ⟨s.data.map lowerChar⟩

/-- The ASCII whitespace characters removed by `str.strip()`. -/
def isSpaceChar (c : Char) : Bool :=
  c = Char.ofNat 32 || c = Char.ofNat 9 || c = Char.ofNat 10 ||
  c = Char.ofNat 13 || c = Char.ofNat 11 || c = Char.ofNat 12

/-- Model of Python `s.strip()`: drop whitespace from both ends. -/
def strStrip (s : String) : String :=
  ⟨((s.data.dropWhile isSpaceChar).reverse.dropWhile isSpaceChar).reverse⟩

/-! ## GUID shape check (model of `GUID_RE` and `GUID_RE.match`)

`GUID_RE` is the anchored regex `^[0-9a-fA-F]{8}-[0-9a-fA-F]{4}-`
`[0-9a-fA-F]{4}-[0-9a-fA-F]{4}-[0-9a-fA-F]{12}$`.  We model the match as a
scanner over the character list: consume a hex run of the prescribed
length, then a dash, and require the input to be exhausted at the end. -/

/-- A character of the class `[0-9a-fA-F]`. -/
def isHexDigit (c : Char) : Bool :=
  (Char.ofNat 48 ≤ c && c ≤ Char.ofNat 57) ||
  (Char.ofNat 97 ≤ c && c ≤ Char.ofNat 102) ||
  (Char.ofNat 65 ≤ c && c ≤ Char.ofNat 70)

/-- Consume exactly `n` hex digits, returning the remaining characters. -/
def consumeHex : Nat → List Char → Option (List Char)
  | 0, cs => some cs
  | _ + 1, [] => none
  | n + 1, c :: cs => if isHexDigit c then consumeHex n cs else none

/-- Consume a single dash character. -/
def consumeDash : List Char → Option (List Char)
  | [] => none
  | c :: cs => if c = Char.ofNat 45 then some cs else none

/-- Model of `GUID_RE.match(s)` being truthy: the string is exactly five
hex groups of lengths 8-4-4-4-12 joined by dashes. -/
def GUID_RE_match (s : String) : Bool :=
  ((((((((consumeHex 8 s.data).bind consumeDash).bind (consumeHex 4)).bind
      consumeDash).bind (consumeHex 4)).bind consumeDash).bind
      (consumeHex 4)).bind consumeDash).bind (consumeHex 12) == some []

/-! ## `build_subscription_index` (directory index builder) -/

/-- One subscription entry of the directory listing returned by
`client.subscriptions.list()`; `None` fields are collapsed to `""` by the
source's `(x or "")`. -/
structure DirectoryEntry where
  subscription_id : String
  display_name : String
deriving DecidableEq

/-- The mutable state of the `build_subscription_index` loop: the two
dictionaries, the `seen_names` set, and the number of duplicate-name
warnings printed so far. -/
structure IndexState where
  name_to_id : List (String × String)
  id_to_name : List (String × String)
  seen_names : List String
  warnings : Nat
deriving DecidableEq

/-- One iteration of the `for s in subs` loop of
`build_subscription_index`. -/
def indexStep (st : IndexState) (e : DirectoryEntry) : IndexState :=
  let display := strStrip e.display_name
  let sid := strStrip e.subscription_id
  if sid = "" then st
  else
    let st1 : IndexState := { st with id_to_name := assocUpdate st.id_to_name sid display }
    let key := strLower display
    if key ∈ st1.seen_names then { st1 with warnings := st1.warnings + 1 }
    else
      let st2 : IndexState := { st1 with seen_names := key :: st1.seen_names }
      match alookup st2.name_to_id key with
      | some _ => st2
      | none => { st2 with name_to_id := st2.name_to_id ++ [(key, sid)] }

/-- Model of `build_subscription_index`: fold the directory entries in
order starting from empty dictionaries. -/
def build_subscription_index (entries : List DirectoryEntry) : IndexState :=
  entries.foldl indexStep ⟨[], [], [], 0⟩

/-! ## `resolve_subscription_id` -/

/-- Model of `resolve_subscription_id(sub_input, name_to_id, id_to_name)`.
Returns the resolved id (`None` on failure) together with the number of
warnings printed.  The source checks `if not sid`, which is true for both
a missing key and an empty-string value, so both are modelled. -/
def resolve_subscription_id (sub_input : String)
    (name_to_id : List (String × String)) (id_to_name : List (String × String)) :
    Option String × Nat :=
  let _ := id_to_name
  if GUID_RE_match sub_input then (some sub_input, 0)
  else
    let key := strLower sub_input
    match alookup name_to_id key with
    | none => (none, 1)
    | some sid => if sid = "" then (none, 1) else (some sid, 0)

/-! ## Aggregation driver of `build_subscriptions_yaml.main` -/

/-- Python `set.add` on an insertion-ordered, duplicate-free list model:
membership is case-sensitive string equality. -/
def setAdd (s : List String) (x : String) : List String :=
  if x ∈ s then s else s ++ [x]

/-- The accumulators of the `for sub_raw, rg in rows` loop in `main`:
`agg_rgs` (defaultdict of sets) and `agg_name`. -/
structure AggState where
  agg_rgs : List (String × List String)
  agg_name : List (String × String)
deriving DecidableEq

/-- Python truthiness of an optional string: `None` and `""` are falsy. -/
def truthyOpt (o : Option String) : Bool := !(o.getD "" == "")

/-- One iteration of the aggregation loop of `build_subscriptions_yaml.main`:
resolve the token, skip the row on failure, add the resource group to the
subscription's set, and record a display name via `setdefault`. -/
def aggStep (name_to_id id_to_name : List (String × String))
    (st : AggState) (row : String × String) : AggState :=
  match (resolve_subscription_id row.1 name_to_id id_to_name).1 with
  | none => st
  | some sid =>
      if sid = "" then st
      else
        let cur := (alookup st.agg_rgs sid).getD []
        let st1 : AggState := { st with agg_rgs := assocUpdate st.agg_rgs sid (setAdd cur row.2) }
        let cn0 := alookup id_to_name sid
        let cn1 := if !truthyOpt cn0 && !GUID_RE_match row.1 then some (strStrip row.1) else cn0
        if truthyOpt cn1 then
          { st1 with agg_name := setdefaultA st1.agg_name sid (cn1.getD "") }
        else st1

/-- Model of the aggregation phase of `build_subscriptions_yaml.main`. -/
def aggregate (name_to_id id_to_name : List (String × String))
    (rows : List (String × String)) : AggState :=
  rows.foldl (aggStep name_to_id id_to_name) ⟨[], []⟩

/-! ## `usage_with_retry` (resilient query executor of rg_monthly_costs.py)

The remote call `cm_client.query.usage(...)` is modelled by a stream of
call results: element `i` is what the `i`-th call would produce.  The
executor walks the stream exactly as the `while True` loop walks
successive calls. -/

/-- Outcome of one remote call: a successful response, or an
`HttpResponseError` with a status code. -/
inductive CallResult (α : Type) where
  | ok (v : α)
  | httpErr (status : Nat)
deriving DecidableEq

/-- Outcome of the executor: the value returned, the error re-raised, or
the model artifact of running out of scripted calls. -/
inductive ExecOutcome (α : Type) where
  | success (v : α)
  | raised (status : Nat)
  | noMoreCalls
deriving DecidableEq

/-- The transient class tested by `if e.status_code in (429, 503)`. -/
def isTransient (status : Nat) : Bool := status == 429 || status == 503

/-- A call result that is an error of the transient class. -/
def isTransientErr {α : Type} : CallResult α → Bool
  | .ok _ => false
  | .httpErr s => isTransient s

/-- Model of the `while True` loop of `usage_with_retry`, at loop entry
with counter `attempt`.  A transient failure increments `attempt` and
re-raises when `attempt >= max_retries`; any other failure re-raises at
once; a success returns. -/
def usage_with_retry {α : Type} (calls : List (CallResult α))
    (max_retries : Nat) (attempt : Nat) : ExecOutcome α :=
  match calls with
  | [] => .noMoreCalls
  | .ok v :: _ => .success v
  | .httpErr s :: rest =>
      if isTransient s then
        if attempt + 1 ≥ max_retries then .raised s
        else usage_with_retry rest max_retries (attempt + 1)
      else .raised s

/-! ## Retry wait computation (lines 52-61 of rg_monthly_costs.py) -/

/-- The pre-jitter wait: the provider hint (result of `_parse_retry_after`)
verbatim when present, otherwise `min(base_sleep * (2 ** attempt), 60.0)`. -/
def computeWait (retry_after : Option ℚ) (base_sleep : ℚ) (attempt : Nat) : ℚ :=
  match retry_after with
  | some h => h
  | none => min (base_sleep * 2 ^ attempt) 60

/-- `sleep_s = retry_after + jitter` where `jitter` was drawn by
`random.uniform(0, 0.2 * retry_after)`. -/
def sleep_s (retry_after jitter : ℚ) : ℚ := retry_after + jitter

/-! ## Cost row aggregator (lines 128-133 of
`query_rg_costs_for_subscription`)

A result row is modelled by its two projected cells `(r[rg_idx],
r[cost_idx])`, each possibly null.  `r[rg_idx] or ""` collapses a null
name to `""`; `float(r[cost_idx] or 0.0)` collapses a null cost to 0. -/

/-- The mapping key of a row: `(r[rg_idx] or "").lower()`. -/
def rowKey (r : Option String × Option ℚ) : String := strLower (r.1.getD "")

/-- The cost contribution of a row: `float(r[cost_idx] or 0.0)`. -/
def rowCost (r : Option String × Option ℚ) : ℚ := r.2.getD 0

/-- The `for r in rows` accumulation loop:
`out[rg.lower()] = out.get(rg.lower(), 0.0) + cost`. -/
def foldCostRows (out : List (String × ℚ)) :
    List (Option String × Option ℚ) → List (String × ℚ)
  | [] => out
  | r :: rest =>
      foldCostRows (assocUpdate out (rowKey r) ((alookup out (rowKey r)).getD 0 + rowCost r)) rest

/-- The dict returned by `query_rg_costs_for_subscription` as a function of
the projected result rows (the remote call, column location and retry
plumbing are handled elsewhere). -/
def query_rg_costs_out (rows : List (Option String × Option ℚ)) : List (String × ℚ) :=
  foldCostRows [] rows

/-! ## `previous_month_range` -/

/-- A naive `datetime.datetime` value as used by the source (UTC, no
tzinfo). -/
structure PyDateTime where
  year : Nat
  month : Nat
  day : Nat
  hour : Nat
  minute : Nat
  second : Nat
  microsecond : Nat
deriving DecidableEq

/-- Gregorian leap-year test. -/
def isLeap (y : Nat) : Bool := (y % 4 == 0 && y % 100 != 0) || (y % 400 == 0)

/-- Number of days of month `m` of year `y`. -/
def daysInMonth (y m : Nat) : Nat :=
  if m = 2 then (if isLeap y then 29 else 28)
  else if m = 4 ∨ m = 6 ∨ m = 9 ∨ m = 11 then 30
  else 31

/-- `d - datetime.timedelta(days=1)` for a whole-day shift: the time of
day is unchanged, the date moves back one day. -/
def subOneDay (d : PyDateTime) : PyDateTime :=
  if 1 < d.day then { d with day := d.day - 1 }
  else if 1 < d.month then
    { d with month := d.month - 1, day := daysInMonth d.year (d.month - 1) }
  else { d with year := d.year - 1, month := 12, day := 31 }

/-- `d.replace(day=1, hour=0, minute=0, second=0, microsecond=0)`. -/
def replaceFirstMidnight (d : PyDateTime) : PyDateTime :=
  { d with day := 1, hour := 0, minute := 0, second := 0, microsecond := 0 }

/-- Decimal rendering of `n` left-padded with zeros to width 2. -/
def pad2 (n : Nat) : String :=
  if n < 10 then "0" ++ toString n else toString n

/-- Decimal rendering of `n` left-padded with zeros to width 4. -/
def pad4 (n : Nat) : String :=
  if n < 10 then "000" ++ toString n
  else if n < 100 then "00" ++ toString n
  else if n < 1000 then "0" ++ toString n
  else toString n

/-- `d.isoformat()` of a naive datetime with `microsecond == 0`:
`YYYY-MM-DDTHH:MM:SS`. -/
def isoformat (d : PyDateTime) : String :=
  pad4 d.year ++ "-" ++ pad2 d.month ++ "-" ++ pad2 d.day ++ "T" ++
  pad2 d.hour ++ ":" ++ pad2 d.minute ++ ":" ++ pad2 d.second

/-- Model of `previous_month_range(now_utc)`: first of this month, step
back one day, snap to the first of that month; render both with a `Z`
suffix. -/
def previous_month_range (now_utc : PyDateTime) : String × String :=
  let first_of_this_month := replaceFirstMidnight now_utc
  let last_month_end := first_of_this_month
  let prev_month_last_day := subOneDay last_month_end
  let first_of_prev_month := replaceFirstMidnight prev_month_last_day
  (isoformat first_of_prev_month ++ "Z", isoformat last_month_end ++ "Z")

/-- Midnight on the first day of month `m` of year `y` (used to state
what `previous_month_range` returns). -/
def firstOfMonthMidnight (y m : Nat) : PyDateTime := ⟨y, m, 1, 0, 0, 0, 0⟩

/-! ## Cost-pull driver of `rg_monthly_costs.main` (lines 159-173) -/

/-- One entry of the `subscriptions:` list of config.yml. -/
structure SubTarget where
  id : String
  resource_groups : List String
deriving DecidableEq

/-- One output row of the cost-pull CSV. -/
structure CostRecord where
  subscription_id : String
  resource_group : String
  start : String
  «end» : String
  total_cost : ℚ
deriving DecidableEq

/-- Python `round(x, 2)` modelled on rationals: round to the nearest
multiple of 1/100 (ties away from the lower value). -/
def round2 (q : ℚ) : ℚ := (round (q * 100) : ℤ) / 100

/-- The record-building loop of `main`: for each config subscription,
lower-case the requested groups, query its cost dict (`costsOf`), and emit
one record per requested group, defaulting a missing group to cost 0. -/
def recordsFor (costsOf : String → List (String × ℚ)) (targets : List SubTarget)
    (start_iso end_iso : String) : List CostRecord :=
  targets.flatMap fun sub =>
    (sub.resource_groups.map strLower).map fun rg =>
      { subscription_id := sub.id
        resource_group := rg
        start := start_iso
        «end» := end_iso
        total_cost := round2 ((alookup (costsOf sub.id) rg).getD 0) }

/-! ## Helper lemmas -/

theorem indexStep_preserves_name (st : IndexState) (e : DirectoryEntry) (k v : String)
    (h : alookup st.name_to_id k = some v) :
    alookup (indexStep st e).name_to_id k = some v := by
  unfold indexStep
  dsimp only
  split
  · exact h
  · split
    · exact h
    · split
      · exact h
      · exact alookup_append_of_eq_some _ _ _ _ h

theorem build_fold_preserves_name (es : List DirectoryEntry) (st : IndexState) (k v : String)
    (h : alookup st.name_to_id k = some v) :
    alookup (es.foldl indexStep st).name_to_id k = some v := by
  induction es generalizing st with
  | nil => exact h
  | cons e tl ih => exact ih _ (indexStep_preserves_name st e k v h)

theorem aggStep_agg_rgs (ntid itid : List (String × String)) (st : AggState)
    (row : String × String) :
    (aggStep ntid itid st row).agg_rgs =
      match (resolve_subscription_id row.1 ntid itid).1 with
      | none => st.agg_rgs
      | some sid =>
          if sid = "" then st.agg_rgs
          else assocUpdate st.agg_rgs sid (setAdd ((alookup st.agg_rgs sid).getD []) row.2) := by
  unfold aggStep
  cases hres : (resolve_subscription_id row.1 ntid itid).1 with
  | none => rfl
  | some sid =>
      by_cases hs : sid = ""
      · simp [hs]
      · simp only [hs, if_false]
        split <;> split <;> rfl

/-! ## Claim theorems -/

/-- C6: a token of the 8-4-4-4-12 hexadecimal GUID shape is returned
verbatim by `resolve_subscription_id`, with no warning, for every index —
in particular for one in which the GUID does not appear. -/
theorem C6_guid_pass_through (tok : String)
    (name_to_id id_to_name : List (String × String))
    (h : GUID_RE_match tok = true) :
    resolve_subscription_id tok name_to_id id_to_name = (some tok, 0) := by
  simp [resolve_subscription_id, h]

theorem C6_guid_pass_through_witness :
    resolve_subscription_id "11111111-1111-1111-1111-111111111111" [] [] =
      (some "11111111-1111-1111-1111-111111111111", 0) :=
  C6_guid_pass_through _ [] [] (by decide)

/-- C7: the slept duration is `w + jitter`, and for any jitter in
`[0, 0.2 * w)` it lies in the half-open interval `[w, 1.2 * w)`. -/
theorem C7_jitter_bound (w j : ℚ) (h0 : 0 ≤ j) (h1 : j < 1/5 * w) :
    sleep_s w j = w + j ∧ w ≤ sleep_s w j ∧ sleep_s w j < 12/10 * w := by
  refine ⟨rfl, ?_, ?_⟩ <;> unfold sleep_s <;> linarith

theorem C7_jitter_bound_witness :
    sleep_s 10 1 = 10 + 1 ∧ (10 : ℚ) ≤ sleep_s 10 1 ∧ sleep_s 10 1 < 12/10 * 10 :=
  C7_jitter_bound 10 1 (by norm_num) (by norm_num)

/-- C2 counterexample: a provider-supplied wait hint of 120 seconds is used
verbatim, so the pre-jitter wait exceeds 60 seconds — the hint is not
capped. -/
theorem C2_hint_uncapped_counterexample :
    computeWait (some 120) 2 0 = 120 ∧ ¬ computeWait (some 120) 2 0 ≤ 60 := by
  refine ⟨rfl, ?_⟩
  norm_num [computeWait]

/-- C2 (amended): the pre-jitter wait is capped at 60 seconds only on the
exponential-backoff path (no hint); a provider-supplied numeric hint is
used verbatim and is not capped. -/
theorem C2_backoff_cap_amended (base_sleep : ℚ) (attempt : Nat) (hint : ℚ) :
    computeWait none base_sleep attempt ≤ 60 ∧
    computeWait (some hint) base_sleep attempt = hint :=
  ⟨min_le_right _ _, rfl⟩

/-- C5: `name_to_id` is never overwritten — once a lower-cased display name
maps to an id after processing a prefix of the directory, it still maps to
that id after processing any extension; and on the two-entry input
`[{id:A, name:X}, {id:B, name:X}]` the key `"x"` maps to `"A"` with
exactly one duplicate-name warning emitted. -/
theorem C5_name_to_id_first_seen :
    (∀ (es tail : List DirectoryEntry) (k v : String),
        alookup (build_subscription_index es).name_to_id k = some v →
        alookup (build_subscription_index (es ++ tail)).name_to_id k = some v) ∧
    alookup (build_subscription_index [⟨"A", "X"⟩, ⟨"B", "X"⟩]).name_to_id "x" = some "A" ∧
    (build_subscription_index [⟨"A", "X"⟩, ⟨"B", "X"⟩]).warnings = 1 := by
  refine ⟨?_, by decide, by decide⟩
  intro es tail k v h
  unfold build_subscription_index at h ⊢
  rw [List.foldl_append]
  exact build_fold_preserves_name tail _ k v h

theorem C5_name_to_id_first_seen_witness :
    alookup (build_subscription_index
        ([⟨"A", "X"⟩] ++ [⟨"B", "X"⟩, ⟨"C", "Y"⟩])).name_to_id "x" = some "A" :=
  C5_name_to_id_first_seen.1 [⟨"A", "X"⟩] [⟨"B", "X"⟩, ⟨"C", "Y"⟩] "x" "A" (by decide)

/-- C1 counterexample: two input rows with the same subscription token and
resource groups `"rg1"` and `"RG1"` (differing only in casing) fold into a
resource-group set with two elements, not one. -/
theorem C1_case_fold_counterexample :
    (alookup (aggregate [] []
        [("11111111-1111-1111-1111-111111111111", "rg1"),
         ("11111111-1111-1111-1111-111111111111", "RG1")]).agg_rgs
      "11111111-1111-1111-1111-111111111111").getD [] = ["rg1", "RG1"] ∧
    ¬ ((alookup (aggregate [] []
        [("11111111-1111-1111-1111-111111111111", "rg1"),
         ("11111111-1111-1111-1111-111111111111", "RG1")]).agg_rgs
      "11111111-1111-1111-1111-111111111111").getD []).length = 1 := by
  decide

/-- C1 (amended): for two input rows whose tokens resolve to the same
subscription id, the folded resource-group set keeps both casings: it has
exactly one element only when the two resource_group strings are equal
byte-for-byte, and exactly two elements (in first-seen order) otherwise —
set membership is case-sensitive, so casings are not merged. -/
theorem C1_case_sensitive_fold_amended (tok1 tok2 r1 r2 sid : String)
    (ntid itid : List (String × String))
    (h1 : (resolve_subscription_id tok1 ntid itid).1 = some sid)
    (h2 : (resolve_subscription_id tok2 ntid itid).1 = some sid)
    (hs : sid ≠ "") :
    (alookup (aggregate ntid itid [(tok1, r1), (tok2, r2)]).agg_rgs sid).getD []
      = if r2 = r1 then [r1] else [r1, r2] := by
  have e1 : aggregate ntid itid [(tok1, r1), (tok2, r2)]
      = aggStep ntid itid (aggStep ntid itid ⟨[], []⟩ (tok1, r1)) (tok2, r2) := rfl
  have s1 : (aggStep ntid itid ⟨[], []⟩ (tok1, r1)).agg_rgs = [(sid, [r1])] := by
    rw [aggStep_agg_rgs]
    rw [h1]
    simp [hs, alookup, setAdd, assocUpdate]
  rw [e1, aggStep_agg_rgs]
  rw [h2]
  simp only [hs, if_false, s1]
  have ha : alookup [(sid, [r1])] sid = some [r1] := by simp [alookup]
  rw [ha]
  have hb : assocUpdate [(sid, [r1])] sid (setAdd [r1] r2) = [(sid, setAdd [r1] r2)] := by
    simp [assocUpdate]
  rw [Option.getD_some, hb]
  have hc : alookup [(sid, setAdd [r1] r2)] sid = some (setAdd [r1] r2) := by simp [alookup]
  rw [hc, Option.getD_some]
  by_cases hr : r2 = r1 <;> simp [setAdd, List.mem_singleton, hr]

theorem C1_case_sensitive_fold_amended_witness :
    (alookup (aggregate [] []
        [("22222222-2222-2222-2222-222222222222", "rgA"),
         ("22222222-2222-2222-2222-222222222222", "RGA")]).agg_rgs
      "22222222-2222-2222-2222-222222222222").getD []
      = if ("RGA" : String) = "rgA" then ["rgA"] else ["rgA", "RGA"] :=
  C1_case_sensitive_fold_amended "22222222-2222-2222-2222-222222222222"
    "22222222-2222-2222-2222-222222222222" "rgA" "RGA"
    "22222222-2222-2222-2222-222222222222" [] [] (by decide) (by decide) (by decide)

/-- C4: the executor returns the value on a successful call; it raises
status `s` exactly when either a non-transient failure with status `s`
occurs after fewer than `max_retries` transient failures (propagated
immediately, whatever calls would follow), or the first `max_retries`
calls are all transient failures and the `max_retries`-th (the last) has
status `s`. -/
theorem C4_retry_raise_iff {α : Type} (calls : List (CallResult α)) (m : Nat)
    (hm : 1 ≤ m) :
    (∀ s, usage_with_retry calls m 0 = .raised s ↔
      ∃ pre post, calls = pre ++ CallResult.httpErr s :: post ∧
        (∀ c ∈ pre, isTransientErr c = true) ∧
        ((isTransient s = false ∧ pre.length < m) ∨
         (isTransient s = true ∧ pre.length + 1 = m))) ∧
    (∀ (v : α) pre post, calls = pre ++ CallResult.ok v :: post →
      (∀ c ∈ pre, isTransientErr c = true) → pre.length < m →
      usage_with_retry calls m 0 = .success v) := by
  constructor
  · intro s
    have key : ∀ (cs : List (CallResult α)) (a : Nat), a < m →
        (usage_with_retry cs m a = .raised s ↔
          ∃ pre post, cs = pre ++ CallResult.httpErr s :: post ∧
            (∀ c ∈ pre, isTransientErr c = true) ∧
            ((isTransient s = false ∧ pre.length < m - a) ∨
             (isTransient s = true ∧ pre.length + 1 = m - a))) := by
      intro cs
      induction cs with
      | nil =>
          intro a ha
          constructor
          · intro hcon
            exact absurd hcon (by simp [usage_with_retry])
          · rintro ⟨pre, post, heq, -, -⟩
            cases pre <;> simp at heq
      | cons c rest ih =>
          intro a ha
          cases c with
          | ok v =>
              constructor
              · intro hcon
                exact absurd hcon (by simp [usage_with_retry])
              · rintro ⟨pre, post, heq, hall, -⟩
                cases pre with
                | nil => simp at heq
                | cons p ptl =>
                    rw [List.cons_append] at heq
                    obtain ⟨hp, -⟩ := List.cons.inj heq
                    have hmem := hall p (List.mem_cons_self p ptl)
                    rw [← hp] at hmem
                    simp [isTransientErr] at hmem
          | httpErr t =>
              have hstep : usage_with_retry (CallResult.httpErr t :: rest) m a =
                  if isTransient t then
                    (if a + 1 ≥ m then .raised t else usage_with_retry rest m (a + 1))
                  else .raised t := rfl
              by_cases ht : isTransient t = true
              · by_cases hlast : a + 1 ≥ m
                · rw [hstep, if_pos ht, if_pos hlast]
                  constructor
                  · intro hra
                    have hts : t = s := by injection hra
                    subst hts
                    exact ⟨[], rest, rfl, by simp, Or.inr ⟨ht, by simp only [List.length_nil]; omega⟩⟩
                  · rintro ⟨pre, post, heq, hall, hcase⟩
                    cases pre with
                    | nil =>
                        simp only [List.nil_append] at heq
                        obtain ⟨hts, -⟩ := List.cons.inj heq
                        have hts2 : t = s := by injection hts
                        rw [hts2]
                    | cons p ptl =>
                        exfalso
                        have hma : m - a = 1 := by omega
                        rcases hcase with ⟨-, hlen⟩ | ⟨-, hlen⟩ <;>
                          rw [hma] at hlen <;>
                          simp only [List.length_cons] at hlen <;> omega
                · have hlt : a + 1 < m := by omega
                  rw [hstep, if_pos ht, if_neg hlast]
                  rw [ih (a + 1) hlt]
                  constructor
                  · rintro ⟨pre, post, heq, hall, hcase⟩
                    refine ⟨CallResult.httpErr t :: pre, post, ?_, ?_, ?_⟩
                    · rw [List.cons_append, heq]
                    · intro c hc
                      rcases List.mem_cons.mp hc with hc1 | hc2
                      · rw [hc1]
                        simpa [isTransientErr] using ht
                      · exact hall c hc2
                    · rcases hcase with ⟨hns, hlen⟩ | ⟨hts, hlen⟩
                      · exact Or.inl ⟨hns, by simp only [List.length_cons]; omega⟩
                      · exact Or.inr ⟨hts, by simp only [List.length_cons]; omega⟩
                  · rintro ⟨pre, post, heq, hall, hcase⟩
                    cases pre with
                    | nil =>
                        exfalso
                        simp only [List.nil_append] at heq
                        obtain ⟨hts, -⟩ := List.cons.inj heq
                        have hts2 : t = s := by injection hts
                        rcases hcase with ⟨hns, -⟩ | ⟨-, hlen⟩
                        · rw [← hts2, ht] at hns
                          exact Bool.noConfusion hns
                        · simp only [List.length_nil, Nat.zero_add] at hlen
                          omega
                    | cons p ptl =>
                        rw [List.cons_append] at heq
                        obtain ⟨-, hrest⟩ := List.cons.inj heq
                        refine ⟨ptl, post, hrest,
                          fun c hc => hall c (List.mem_cons_of_mem _ hc), ?_⟩
                        rcases hcase with ⟨hns, hlen⟩ | ⟨hts, hlen⟩
                        · exact Or.inl ⟨hns, by
                            simp only [List.length_cons] at hlen; omega⟩
                        · exact Or.inr ⟨hts, by
                            simp only [List.length_cons] at hlen; omega⟩
              · rw [hstep, if_neg ht]
                have ht2 : isTransient t = false := by
                  cases hb : isTransient t
                  · rfl
                  · exact absurd hb ht
                constructor
                · intro hra
                  have hts : t = s := by injection hra
                  subst hts
                  exact ⟨[], rest, rfl, by simp, Or.inl ⟨ht2, by simp only [List.length_nil]; omega⟩⟩
                · rintro ⟨pre, post, heq, hall, hcase⟩
                  cases pre with
                  | nil =>
                      simp only [List.nil_append] at heq
                      obtain ⟨hts, -⟩ := List.cons.inj heq
                      have hts2 : t = s := by injection hts
                      rw [hts2]
                  | cons p ptl =>
                      exfalso
                      rw [List.cons_append] at heq
                      obtain ⟨hp, -⟩ := List.cons.inj heq
                      have hmem := hall p (List.mem_cons_self p ptl)
                      rw [← hp] at hmem
                      simp only [isTransientErr] at hmem
                      rw [hmem] at ht2
                      exact Bool.noConfusion ht2
    have h0 := key calls 0 (by omega)
    simpa using h0
  · have key : ∀ (pre : List (CallResult α)) (a : Nat) (v : α)
        (post : List (CallResult α)),
        (∀ c ∈ pre, isTransientErr c = true) → pre.length < m - a →
        usage_with_retry (pre ++ CallResult.ok v :: post) m a = .success v := by
      intro pre
      induction pre with
      | nil =>
          intro a v post _ _
          rfl
      | cons p ptl ih =>
          intro a v post hall hlen
          cases p with
          | ok w =>
              have hmem := hall (CallResult.ok w) (List.mem_cons_self _ _)
              simp [isTransientErr] at hmem
          | httpErr t =>
              have ht := hall (CallResult.httpErr t) (List.mem_cons_self _ _)
              simp only [isTransientErr] at ht
              simp only [List.length_cons] at hlen
              have hcont : ¬ a + 1 ≥ m := by omega
              have hstep : usage_with_retry
                  ((CallResult.httpErr t :: ptl) ++ CallResult.ok v :: post) m a =
                  if isTransient t then
                    (if a + 1 ≥ m then .raised t
                     else usage_with_retry (ptl ++ CallResult.ok v :: post) m (a + 1))
                  else .raised t := rfl
              rw [hstep, if_pos ht, if_neg hcont]
              exact ih (a + 1) v post
                (fun c hc => hall c (List.mem_cons_of_mem _ hc)) (by omega)
    intro v pre post heq hall hlen
    rw [heq]
    exact key pre 0 v post hall (by omega)

theorem C4_retry_raise_iff_witness :
    usage_with_retry ([CallResult.httpErr 429, CallResult.httpErr 403] : List (CallResult Nat))
      8 0 = ExecOutcome.raised 403 := by
  exact ((C4_retry_raise_iff
      [CallResult.httpErr 429, CallResult.httpErr 403] 8 (by omega)).1 403).mpr
    ⟨[CallResult.httpErr 429], [], rfl, by decide, Or.inl ⟨by decide, by decide⟩⟩

theorem filter_eq_nil_of_all {α : Type} (l : List α) (p : α → Bool)
    (h : ∀ x ∈ l, p x = false) : l.filter p = [] := by
  induction l with
  | nil => rfl
  | cons a as ih =>
      have ha := h a (List.mem_cons_self a as)
      rw [List.filter_cons, ha]
      simp only [Bool.false_eq_true, if_false]
      exact ih (fun x hx => h x (List.mem_cons_of_mem _ hx))

theorem foldCostRows_alookup (rows : List (Option String × Option ℚ))
    (out : List (String × ℚ)) (k : String) :
    alookup (foldCostRows out rows) k =
      if rows.any (fun r => rowKey r == k)
      then some ((alookup out k).getD 0 +
        ((rows.filter (fun r => rowKey r == k)).map rowCost).sum)
      else alookup out k := by
  induction rows generalizing out with
  | nil => simp [foldCostRows]
  | cons r rest ih =>
      have hstep : foldCostRows out (r :: rest) =
          foldCostRows
            (assocUpdate out (rowKey r) ((alookup out (rowKey r)).getD 0 + rowCost r))
            rest := rfl
      by_cases hk : rowKey r = k
      · have hb : (rowKey r == k) = true := by simp [hk]
        rw [hstep, ih]
        have hself : alookup
            (assocUpdate out (rowKey r) ((alookup out (rowKey r)).getD 0 + rowCost r)) k
            = some ((alookup out k).getD 0 + rowCost r) := by
          rw [← hk]
          exact alookup_assocUpdate_self out (rowKey r) _
        simp only [List.any_cons, hb, Bool.true_or, if_true, List.filter_cons, List.map_cons,
          List.sum_cons]
        by_cases hany : rest.any (fun r2 => rowKey r2 == k) = true
        · simp only [hany, if_true, hself, Option.getD_some]
          congr 1
          ring
        · have hany2 : rest.any (fun r2 => rowKey r2 == k) = false := by
            cases hb2 : rest.any (fun r2 => rowKey r2 == k)
            · rfl
            · exact absurd hb2 hany
          have hfil : rest.filter (fun r2 => rowKey r2 == k) = [] := by
            refine filter_eq_nil_of_all _ _ ?_
            intro x hx
            cases hb3 : (rowKey x == k)
            · rfl
            · exfalso
              have : rest.any (fun r2 => rowKey r2 == k) = true :=
                List.any_eq_true.mpr ⟨x, hx, hb3⟩
              rw [this] at hany2
              exact Bool.noConfusion hany2
          simp only [hany2, Bool.false_eq_true, if_false, hself, Option.getD_some, hfil,
            List.map_nil, List.sum_nil]
          congr 1
          ring
      · have hb : (rowKey r == k) = false := by simp [hk]
        rw [hstep, ih]
        have hne : alookup
            (assocUpdate out (rowKey r) ((alookup out (rowKey r)).getD 0 + rowCost r)) k
            = alookup out k :=
          alookup_assocUpdate_of_ne out (rowKey r) k _ (fun hkk => hk hkk.symm)
        simp only [List.any_cons, hb, Bool.false_or, List.filter_cons, Bool.false_eq_true,
          if_false, hne]

/-- C8: the aggregator keys each result row by the lower-cased resource
group name, so the folded dict maps a key to the sum of the costs of all
rows whose lower-cased name equals it (rows differing only in casing are
merged into a single key), a missing or null cost contributing 0; keys
with no matching row are absent. -/
theorem C8_lowercase_merge_sum (rows : List (Option String × Option ℚ)) (k : String) :
    alookup (query_rg_costs_out rows) k =
      if rows.any (fun r => rowKey r == k)
      then some (((rows.filter (fun r => rowKey r == k)).map rowCost).sum)
      else none := by
  have h := foldCostRows_alookup rows [] k
  simpa [query_rg_costs_out, alookup] using h

/-- C9: `previous_month_range` returns Z-suffixed renderings of midnight
on the first day of the month immediately preceding the invocation month
and midnight on the first day of the invocation month, in that order
(the half-open interval covering the previous calendar month). -/
theorem C9_previous_month_range (now_utc : PyDateTime)
    (h1 : 1 ≤ now_utc.month) (h2 : now_utc.month ≤ 12) (hy : 1 ≤ now_utc.year) :
    previous_month_range now_utc =
      (isoformat (firstOfMonthMidnight
          (if now_utc.month = 1 then now_utc.year - 1 else now_utc.year)
          (if now_utc.month = 1 then 12 else now_utc.month - 1)) ++ "Z",
       isoformat (firstOfMonthMidnight now_utc.year now_utc.month) ++ "Z") := by
  obtain ⟨y, mo, d, hh, mi, s, us⟩ := now_utc
  simp only at h1 h2 hy
  by_cases hmo : mo = 1
  · subst hmo
    simp [previous_month_range, replaceFirstMidnight, subOneDay, firstOfMonthMidnight]
  · have hgt : 1 < mo := by omega
    simp [previous_month_range, replaceFirstMidnight, subOneDay, firstOfMonthMidnight,
      hmo, hgt]

theorem C9_previous_month_range_witness :
    previous_month_range ⟨2026, 10, 12, 5, 4, 3, 2⟩ =
      ("2026-09-01T00:00:00Z", "2026-10-01T00:00:00Z") := by
  have h := C9_previous_month_range ⟨2026, 10, 12, 5, 4, 3, 2⟩
    (by decide) (by decide) (by decide)
  rw [h]
  rfl

theorem recordsFor_cons (costsOf : String → List (String × ℚ)) (t : SubTarget)
    (ts : List SubTarget) (start_iso end_iso : String) :
    recordsFor costsOf (t :: ts) start_iso end_iso =
      ((t.resource_groups.map strLower).map fun rg =>
        { subscription_id := t.id
          resource_group := rg
          start := start_iso
          «end» := end_iso
          total_cost := round2 ((alookup (costsOf t.id) rg).getD 0) }) ++
      recordsFor costsOf ts start_iso end_iso := rfl

theorem recordsFor_sub_mem (costsOf : String → List (String × ℚ))
    (ts : List SubTarget) (start_iso end_iso : String) (rec : CostRecord)
    (h : rec ∈ recordsFor costsOf ts start_iso end_iso) :
    rec.subscription_id ∈ ts.map SubTarget.id := by
  simp only [recordsFor, List.mem_flatMap, List.mem_map] at h
  obtain ⟨sub, hsub, ⟨rg, hrg, hrec⟩⟩ := h
  rw [← hrec]
  exact List.mem_map.mpr ⟨sub, hsub, rfl⟩

theorem filter_block (l : List String) (x sid : String) (f : String → CostRecord)
    (hfr : ∀ y, (f y).resource_group = y) (hfs : ∀ y, (f y).subscription_id = sid)
    (hnd : l.Nodup) (hx : x ∈ l) :
    (l.map f).filter
        (fun rec => rec.subscription_id == sid && rec.resource_group == x) = [f x] := by
  induction l with
  | nil => cases hx
  | cons y ys ih =>
      obtain ⟨hyn, hynd⟩ := List.nodup_cons.mp hnd
      rw [List.map_cons, List.filter_cons]
      by_cases hxy : x = y
      · subst hxy
        have hp : ((f x).subscription_id == sid && (f x).resource_group == x) = true := by
          simp [hfr, hfs]
        rw [hp]
        simp only [if_true]
        have hrest : (ys.map f).filter
            (fun rec => rec.subscription_id == sid && rec.resource_group == x) = [] := by
          refine filter_eq_nil_of_all _ _ ?_
          intro rec hrec
          obtain ⟨z, hz, hfz⟩ := List.mem_map.mp hrec
          rw [← hfz]
          have hzx : (z == x) = false := by
            cases hb : (z == x)
            · rfl
            · exfalso
              have : z = x := by simpa using hb
              rw [this] at hz
              exact hyn hz
          simp [hfr, hfs, hzx]
        rw [hrest]
      · have hp : ((f y).subscription_id == sid && (f y).resource_group == x) = false := by
          have hyx : (y == x) = false := by
            cases hb : (y == x)
            · rfl
            · exfalso
              have hyx2 : y = x := by simpa using hb
              exact hxy hyx2.symm
          simp [hfr, hfs, hyx]
        rw [hp]
        simp only [Bool.false_eq_true, if_false]
        exact ih hynd (List.mem_of_ne_of_mem hxy hx)

/-- C3: under a configuration with distinct subscription ids and, per
subscription, distinct lower-cased resource-group names, the cost-pull
output contains exactly one CostRecord for each requested
(subscription, resource group) pair — carried under the lower-cased name —
whose total_cost is the queried cost for that lower-cased group rounded to
2 decimal places when the query returned it, and `round2 0 = 0` when the
group is absent from the query result; no requested pair is dropped. -/
theorem C3_zero_fill_exactly_one (costsOf : String → List (String × ℚ))
    (targets : List SubTarget) (start_iso end_iso : String)
    (hids : (targets.map SubTarget.id).Nodup)
    (hrgs : ∀ sub ∈ targets, (sub.resource_groups.map strLower).Nodup) :
    ∀ sub ∈ targets, ∀ rg ∈ sub.resource_groups,
      (recordsFor costsOf targets start_iso end_iso).filter
          (fun rec => rec.subscription_id == sub.id && rec.resource_group == strLower rg)
        = [{ subscription_id := sub.id
             resource_group := strLower rg
             start := start_iso
             «end» := end_iso
             total_cost := round2 ((alookup (costsOf sub.id) (strLower rg)).getD 0) }] := by
  revert hids hrgs
  induction targets with
  | nil =>
      intro _ _ sub hsub
      cases hsub
  | cons t ts ih =>
      intro hids hrgs sub hsub rg hrg
      rw [List.map_cons] at hids
      obtain ⟨hnotin, hnd⟩ := List.nodup_cons.mp hids
      rw [recordsFor_cons, List.filter_append]
      rcases List.mem_cons.mp hsub with hst | hst
      · subst hst
        have hleft := filter_block (sub.resource_groups.map strLower) (strLower rg) sub.id
          (fun rg2 =>
            { subscription_id := sub.id
              resource_group := rg2
              start := start_iso
              «end» := end_iso
              total_cost := round2 ((alookup (costsOf sub.id) rg2).getD 0) })
          (fun _ => rfl) (fun _ => rfl)
          (hrgs sub (List.mem_cons_self sub ts))
          (List.mem_map.mpr ⟨rg, hrg, rfl⟩)
        rw [hleft]
        have hright : (recordsFor costsOf ts start_iso end_iso).filter
            (fun rec => rec.subscription_id == sub.id && rec.resource_group == strLower rg)
            = [] := by
          refine filter_eq_nil_of_all _ _ ?_
          intro rec hrec
          have hmem := recordsFor_sub_mem costsOf ts start_iso end_iso rec hrec
          have hne : (rec.subscription_id == sub.id) = false := by
            cases hb : (rec.subscription_id == sub.id)
            · rfl
            · exfalso
              have heq : rec.subscription_id = sub.id := by simpa using hb
              rw [heq] at hmem
              exact hnotin hmem
          simp [hne]
        rw [hright]
        simp
      · have hsubid : sub.id ∈ ts.map SubTarget.id := List.mem_map.mpr ⟨sub, hst, rfl⟩
        have htid : (t.id == sub.id) = false := by
          cases hb : (t.id == sub.id)
          · rfl
          · exfalso
            have heq : t.id = sub.id := by simpa using hb
            rw [heq] at hnotin
            exact hnotin hsubid
        have hleft : ((t.resource_groups.map strLower).map fun rg2 =>
            ({ subscription_id := t.id
               resource_group := rg2
               start := start_iso
               «end» := end_iso
               total_cost := round2 ((alookup (costsOf t.id) rg2).getD 0) } : CostRecord)).filter
            (fun rec => rec.subscription_id == sub.id && rec.resource_group == strLower rg)
            = [] := by
          refine filter_eq_nil_of_all _ _ ?_
          intro rec hrec
          obtain ⟨z, hz, hfz⟩ := List.mem_map.mp hrec
          rw [← hfz]
          simp only
          rw [htid]
          simp
        rw [hleft, List.nil_append]
        exact ih hnd (fun s2 hs2 => hrgs s2 (List.mem_cons_of_mem _ hs2)) sub hst rg hrg

theorem C3_zero_fill_exactly_one_witness :
    ((recordsFor (fun _ => [("rg1", 12345/1000)]) [⟨"S", ["rg1", "rg2"]⟩] "s" "e").filter
        (fun rec => rec.subscription_id == "S" && rec.resource_group == strLower "rg1")
      = [{ subscription_id := "S"
           resource_group := strLower "rg1"
           start := "s"
           «end» := "e"
           total_cost := 247/20 }]) ∧
    ((recordsFor (fun _ => [("rg1", 12345/1000)]) [⟨"S", ["rg1", "rg2"]⟩] "s" "e").filter
        (fun rec => rec.subscription_id == "S" && rec.resource_group == strLower "rg2")
      = [{ subscription_id := "S"
           resource_group := strLower "rg2"
           start := "s"
           «end» := "e"
           total_cost := 0 }]) := by
  constructor
  · have h := C3_zero_fill_exactly_one (fun _ => [("rg1", (12345 : ℚ)/1000)])
      [⟨"S", ["rg1", "rg2"]⟩] "s" "e" (by decide) (by decide)
      ⟨"S", ["rg1", "rg2"]⟩ (by decide) "rg1" (by decide)
    rw [h]
    have hk : strLower "rg1" = "rg1" := rfl
    have hv : alookup [("rg1", (12345 : ℚ)/1000)] "rg1" = some ((12345 : ℚ)/1000) := by
      simp [alookup]
    rw [hk, hv]
    simp only [Option.getD_some]
    have hr : round2 ((12345 : ℚ)/1000) = 247/20 := by
      unfold round2
      rw [round_eq]
      norm_num
    rw [hr]
  · have h := C3_zero_fill_exactly_one (fun _ => [("rg1", (12345 : ℚ)/1000)])
      [⟨"S", ["rg1", "rg2"]⟩] "s" "e" (by decide) (by decide)
      ⟨"S", ["rg1", "rg2"]⟩ (by decide) "rg2" (by decide)
    rw [h]
    have hk : strLower "rg2" = "rg2" := rfl
    have hv : alookup [("rg1", (12345 : ℚ)/1000)] "rg2" = none := by
      simp [alookup]
    rw [hk, hv]
    simp only [Option.getD_none]
    have hr : round2 (0 : ℚ) = 0 := by
      unfold round2
      rw [round_eq]
      norm_num
    rw [hr]

/-- C10 (implicit): every CostRecord the cost-pull driver emits carries as
its resource_group the lower-cased form of a name requested in the
configuration for that subscription — the configured casing is replaced by
its lower-cased form in the output. -/
theorem C10_output_lowercased (costsOf : String → List (String × ℚ))
    (targets : List SubTarget) (start_iso end_iso : String) :
    ∀ rec ∈ recordsFor costsOf targets start_iso end_iso,
      ∃ sub ∈ targets, ∃ rg ∈ sub.resource_groups,
        rec.subscription_id = sub.id ∧ rec.resource_group = strLower rg := by
  intro rec hrec
  simp only [recordsFor, List.mem_flatMap, List.mem_map] at hrec
  obtain ⟨sub, hsub, ⟨rg, hrg, hrec2⟩⟩ := hrec
  obtain ⟨rg0, hrg0, hlow⟩ := hrg
  refine ⟨sub, hsub, rg0, hrg0, ?_, ?_⟩
  · rw [← hrec2]
  · rw [← hrec2, ← hlow]

theorem C10_output_lowercased_witness :
    ∃ sub ∈ [(⟨"S", ["RG1"]⟩ : SubTarget)], ∃ rg ∈ sub.resource_groups,
      ({ subscription_id := "S"
         resource_group := "rg1"
         start := "s"
         «end» := "e"
         total_cost := round2 ((alookup [] "rg1").getD 0) } : CostRecord).subscription_id
          = sub.id ∧
      ({ subscription_id := "S"
         resource_group := "rg1"
         start := "s"
         «end» := "e"
         total_cost := round2 ((alookup [] "rg1").getD 0) } : CostRecord).resource_group
          = strLower rg := by
  have hm : ({ subscription_id := "S"
               resource_group := "rg1"
               start := "s"
               «end» := "e"
               total_cost := round2 ((alookup [] "rg1").getD 0) } : CostRecord)
      ∈ recordsFor (fun _ => []) [⟨"S", ["RG1"]⟩] "s" "e" := by
    have he : recordsFor (fun _ => []) [⟨"S", ["RG1"]⟩] "s" "e"
        = [{ subscription_id := "S"
             resource_group := "rg1"
             start := "s"
             «end» := "e"
             total_cost := round2 ((alookup [] "rg1").getD 0) }] := rfl
    rw [he]
    exact List.mem_cons_self _ _
  exact C10_output_lowercased (fun _ => []) [⟨"S", ["RG1"]⟩] "s" "e" _ hm

end AzDaCost
